import Mathlib

/-!
Verification of the export pipeline of the `cornellnotes` note-taking
application against its natural-language specification.

The development shallowly embeds the two exporters of the repository:

* `src/lib/export-utils.ts` — the PDF exporter (section splitter
  `parseMarkdown`, pre-processing `processContentForExport`, the layout
  engine `renderMarkdownContent` with its block renderers `renderTable`,
  `renderList`, `renderCodeBlock`, `renderBlockquote`, the image placement
  arithmetic of `addImagesToPdf`, and the orchestration `exportToPdf`);
* `src/lib/anki-export-utils.ts` — the flashcard exporter
  (`parseNotesToFlashcards`, `convertTableToHtml`'s alignment derivation,
  `processImagesForAnki`'s markdown-image phase, and `exportToAnki`);
* `src/lib/link-utils.ts` — `extractNoteLinks`.

Modelling conventions:

* JavaScript numbers are modelled by `ℚ`; all arithmetic appearing in the
  translated code (addition, subtraction, division, `Math.min`) is exact on
  the rationals involved.
* JavaScript strings are Lean `String`s; character-level scanners work on
  `List Char`.  The string methods the code uses (`trim`, `split`,
  `startsWith`, `endsWith`, `toLowerCase`, `join`) are given structural
  implementations (`jsTrim`, `jsSplitOn`, …) so closed instances reduce
  inside the kernel; they agree with JavaScript on the ASCII inputs the
  code manipulates.
* Effectful collaborators that cannot influence the verified properties are
  parameters: the text-measurement facility of jsPDF
  (`splitTextToSize` / `getTextWidth`) is an abstract `Metrics` record, and
  the asynchronous `cleanMarkdownForAnki` content transformation is an
  abstract `clean : String → String` argument (its timestamped image
  filenames make it nondeterministic; no claim below depends on card back
  contents beyond the text handed to it).
* Recursive scanners take an explicit fuel argument equal to the input
  length; every step consumes at least one character, so the fuel never
  runs out (`noteLinkAux_fuel` makes this formal where proofs need it).
-/

/-- Membership test for a character in a string's characters. -/
def charIn (c : Char) (s : String) : Bool := s.data.contains c

/-- `hasSub pat s` is true when `pat` occurs as a contiguous substring of
`s` (the semantics of JavaScript's `String.includes`). -/
def hasSubAux (pat : List Char) : List Char → Bool
  | [] => pat.isEmpty
  | c :: cs => pat.isPrefixOf (c :: cs) || hasSubAux pat cs

/-- String-level wrapper of `hasSubAux`. -/
def hasSub (pat s : String) : Bool := hasSubAux pat.data s.data

/-- The JavaScript `\s` character class, restricted to its ASCII members
(space, tab, line feed, vertical tab, form feed, carriage return). -/
def isJsWs (c : Char) : Bool :=
  c == ' ' || c == '\t' || c == '\n' || c == '\r' ||
    c == '\x0b' || c == '\x0c'

/-- The JavaScript character class `[a-z0-9]` with the `i` flag: ASCII
letters and digits. -/
def isAsciiAlnum (c : Char) : Bool := c.isAlpha || c.isDigit

/-- JavaScript `String.prototype.trim`, restricted to ASCII whitespace:
drop `isJsWs` characters from both ends.  Implemented structurally so
that closed instances reduce inside the kernel. -/
def jsTrim (s : String) : String :=
  String.mk (((s.data.dropWhile isJsWs).reverse.dropWhile isJsWs).reverse)

/-- JavaScript `s.startsWith(pre)`. -/
def jsStartsWith (s pre : String) : Bool := pre.data.isPrefixOf s.data

/-- JavaScript `s.endsWith(suf)`. -/
def jsEndsWith (s suf : String) : Bool :=
  suf.data.reverse.isPrefixOf s.data.reverse

/-- JavaScript `s.toLowerCase()` on ASCII data. -/
def jsToLower (s : String) : String := String.mk (s.data.map Char.toLower)

/-- Worker for `jsSplitOn`: split at each non-overlapping leftmost
occurrence of `sep`; `acc` holds the current field reversed.  The fuel
(the input length) cannot run out: every step consumes at least one
character, and exhaustion on the empty remainder coincides with the
regular empty case. -/
def splitOnListAux (sep : List Char) : Nat → List Char → List Char → List (List Char)
  | 0, acc, l => [acc.reverse ++ l]
  | _ + 1, acc, [] => [acc.reverse]
  | fuel + 1, acc, c :: cs =>
    if sep.isPrefixOf (c :: cs) then
      acc.reverse :: splitOnListAux sep fuel [] ((c :: cs).drop sep.length)
    else splitOnListAux sep fuel (c :: acc) cs

/-- JavaScript `s.split(sep)` for a non-empty string separator (every
separator in the translated code is non-empty). -/
def jsSplitOn (s sep : String) : List String :=
  if sep.data.isEmpty then [s]
  else (splitOnListAux sep.data s.data.length [] s.data).map String.mk

/-- JavaScript `Array.prototype.join(sep)`. -/
def jsIntercalate (sep : String) (l : List String) : String :=
  String.mk (List.intercalate sep.data (l.map String.data))

namespace ExportUtils

/-- A Cornell-note section, from the `Section` interface of
`src/lib/export-utils.ts`: a top-level heading together with the raw text
of the lines below it. -/
structure NoteSection where
  heading : String
  content : String
deriving DecidableEq

/-- The body of `parseMarkdown` (`src/lib/export-utils.ts`, lines 377–413)
over the list of lines: the running state is the current heading and the
accumulated content lines; a line starting with `"# "` flushes the pending
section (JavaScript truthiness: only when the pending heading is
non-empty) and starts a new one with heading `line.substring(2)`; any
other line is appended to the current content; at the end the pending
section is flushed under the same non-empty-heading guard. -/
def parseMdAux (h : String) (c : List String) : List String → List NoteSection
  | [] => if h ≠ "" then [⟨h, jsIntercalate "\n" c⟩] else []
  | l :: ls =>
    if jsStartsWith l "# " then
      (if h ≠ "" then [⟨h, jsIntercalate "\n" c⟩] else []) ++
        parseMdAux (l.drop 2) [] ls
    else
      parseMdAux h (c ++ [l]) ls

/-- `parseMarkdown` of `src/lib/export-utils.ts` on a pre-split line
list. -/
def parseMarkdownLines (lines : List String) : List NoteSection :=
  parseMdAux "" [] lines

/-- `parseMarkdown(markdown)` of `src/lib/export-utils.ts`: split the body
on `"\n"` and fold the lines. -/
def parseMarkdown (markdown : String) : List NoteSection :=
  parseMarkdownLines (jsSplitOn markdown "\n")

end ExportUtils

namespace AnkiExport

/-- A flashcard, from the `FlashCard` interface of
`src/lib/anki-export-utils.ts`.  The per-card image map is omitted: the
claims below concern card counts and fronts, and the back is the output of
the abstract `clean` transformation. -/
structure FlashCard where
  front : String
  back : String
deriving DecidableEq

/-- One step of the section-scanning state machine shared by both passes
of `parseNotesToFlashcards` (`src/lib/anki-export-utils.ts`): on a
`"# "` line the heading becomes `line.substring(2).trim()` and the content
resets; otherwise the line is appended to the content only when a heading
is already open (`else if (currentHeading)`). -/
def scanStep (s : String × List String) (line : String) : String × List String :=
  if jsStartsWith line "# " then (jsTrim (line.drop 2), [])
  else if s.1 ≠ "" then (s.1, s.2 ++ [line])
  else s

/-- State of the card-emitting second pass of `parseNotesToFlashcards`:
open heading, accumulated content lines, and the cards pushed so far. -/
structure CardScan where
  heading : String
  content : List String
  cards : List FlashCard

/-- The guarded card push of `parseNotesToFlashcards`
(`src/lib/anki-export-utils.ts`, lines 305–315 and 324–334): a card is
appended only when a heading is open, the content array is non-empty, and
its joined text is non-whitespace; the back is the `clean`ed joined
text. -/
def flushCard (clean : String → String) (s : CardScan) : List FlashCard :=
  if s.heading ≠ "" ∧ s.content ≠ [] ∧
      jsTrim (jsIntercalate "\n" s.content) ≠ "" then
    s.cards ++ [⟨s.heading, clean (jsTrim (jsIntercalate "\n" s.content))⟩]
  else s.cards

/-- One step of the card-emitting loop (`src/lib/anki-export-utils.ts`,
lines 302–321): a `"# "` line flushes the pending card and opens a new
heading; other lines extend the content when a heading is open. -/
def cardStep (clean : String → String) (s : CardScan) (line : String) : CardScan :=
  if jsStartsWith line "# " then
    ⟨jsTrim (line.drop 2), [], flushCard clean s⟩
  else if s.heading ≠ "" then ⟨s.heading, s.content ++ [line], s.cards⟩
  else s

/-- `parseNotesToFlashcards(title, summary, markdown)` of
`src/lib/anki-export-utils.ts` (lines 255–337).  The function first pushes
a summary card when `jsTrim summary()` is non-empty; it then runs a
`forEach` pass over the lines whose card pushes live inside a local
`async` closure that is never invoked, so that pass only advances the
`currentHeading` / `currentContent` state; the following `for` loop —
which does push cards — starts from that leftover state without resetting
it, and the final pending card is flushed after the loop. -/
def parseNotesToFlashcards (clean : String → String)
    (title summary markdown : String) : List FlashCard :=
  let summaryCards : List FlashCard :=
    if jsTrim summary ≠ "" then [⟨title ++ " - Summary", clean summary⟩] else []
  let lines := jsSplitOn markdown "\n"
  let pass1 := lines.foldl scanStep ("", [])
  let pass2 := lines.foldl (cardStep clean) ⟨pass1.1, pass1.2, summaryCards⟩
  flushCard clean pass2

/-- The Anki zip filename of `exportToAnki`
(`src/lib/anki-export-utils.ts`, line 452):
`title.replace(/[^a-z0-9]/gi, "-").toLowerCase()` — each individual
non-alphanumeric character becomes its own hyphen — with the
`-anki-flashcards.zip` suffix. -/
def ankiZipFilename (title : String) : String :=
  jsToLower (String.mk (title.data.map (fun c => if isAsciiAlnum c then c else '-'))) ++
    "-anki-flashcards.zip"

/-- Outcome of `exportToAnki(title, summary, markdown)`
(`src/lib/anki-export-utils.ts`, lines 353–463): parse the flashcards,
throw the structural error when none were generated, otherwise package and
download the zip.  The TSV/zip/readme construction and the image fetches
are elided: they influence the archive contents, not whether an error is
thrown or a download happens, which is what the claims below observe. -/
def exportToAnki (clean : String → String)
    (title summary markdown : String) : Except String String :=
  let flashcards := parseNotesToFlashcards clean title summary markdown
  if flashcards.length = 0 then
    Except.error
      "No flashcards could be generated from this note. Make sure you have headings (# sections) with content."
  else
    Except.ok (ankiZipFilename title)

/-- The column-alignment derivation of `convertTableToHtml`
(`src/lib/anki-export-utils.ts`, lines 45–50), applied to one cell of the
separator row. -/
def ankiAlignmentOf (sep : String) : String :=
  let trimmed := jsTrim sep
  if jsStartsWith trimmed ":" && jsEndsWith trimmed ":" then "center"
  else if jsEndsWith trimmed ":" then "right"
  else "left"

end AnkiExport

namespace ExportUtils

/-- The column-alignment derivation of `renderTable`
(`src/lib/export-utils.ts`, lines 513–520), applied to one cell of the
separator row. -/
def pdfAlignmentOf (alignmentCell : String) : String :=
  if jsStartsWith (jsTrim alignmentCell) ":" && jsEndsWith (jsTrim alignmentCell) ":" then
    "center"
  else if jsEndsWith (jsTrim alignmentCell) ":" then "right"
  else "left"

/-- The alignment rule in the words of the specification (§4.1): a
separator cell whose trimmed form both starts and ends with `:` is
centered, one that merely ends with `:` is right-aligned, anything else is
left-aligned. -/
def specAlignmentOf (cell : String) : String :=
  if jsStartsWith (jsTrim cell) ":" && jsEndsWith (jsTrim cell) ":" then "center"
  else if jsEndsWith (jsTrim cell) ":" then "right"
  else "left"

/-- The PDF download filename of `exportToPdf`
(`src/lib/export-utils.ts`, line 350):
`title.replace(/\s+/g, "-").toLowerCase()` — each maximal run of
whitespace becomes one hyphen; all other characters are kept — with the
`.pdf` extension.  `prevWs` records whether the previous character was
part of a whitespace run already replaced. -/
def wsRunsToHyphenAux (prevWs : Bool) : List Char → List Char
  | [] => []
  | c :: cs =>
    if isJsWs c then
      if prevWs then wsRunsToHyphenAux true cs
      else '-' :: wsRunsToHyphenAux true cs
    else c :: wsRunsToHyphenAux false cs

/-- The PDF download filename (see `wsRunsToHyphenAux`). -/
def pdfFilename (title : String) : String :=
  jsToLower (String.mk (wsRunsToHyphenAux false title.data)) ++ ".pdf"

end ExportUtils

/-- The filename derivation in the words of claim C6: each maximal run of
non-alphanumeric characters becomes one hyphen, and the result is
lowercased.  `prevNon` records whether the previous character was part of
a non-alphanumeric run already replaced. -/
def claimedSlugAux (prevNon : Bool) : List Char → List Char
  | [] => []
  | c :: cs =>
    if isAsciiAlnum c then c :: claimedSlugAux false cs
    else if prevNon then claimedSlugAux true cs
    else '-' :: claimedSlugAux true cs

/-- String-level wrapper of `claimedSlugAux`. -/
def claimedSlug (title : String) : String :=
  jsToLower (String.mk (claimedSlugAux false title.data))

namespace ExportUtils

/-- The image-height cap of `addImagesToPdf`
(`src/lib/export-utils.ts`, line 1051). -/
def maxImageHeight : ℚ := 80

/-- The placed-image dimension computation of `addImagesToPdf`
(`src/lib/export-utils.ts`, lines 1127–1137): the image spans the full
available width; its height follows from the intrinsic aspect ratio
`w / h`; the height is capped at `maxImageHeight`, and when the cap bites
the width is recomputed from the capped height.  Returns
`(finalWidth, finalHeight)`. -/
def imagePlacement (w h maxWidth : ℚ) : ℚ × ℚ :=
  let aspectRatio := w / h
  let imgWidth := maxWidth
  let imgHeight := imgWidth / aspectRatio
  let finalHeight := min imgHeight maxImageHeight
  let finalWidth := if finalHeight = imgHeight then imgWidth
    else finalHeight * aspectRatio
  (finalWidth, finalHeight)

end ExportUtils

/-- Deduplication with first-occurrence order, the behaviour of
`[...new Set(links)]` in `extractNoteLinks` (`src/lib/link-utils.ts`,
line 17).  `seen` holds the values already emitted. -/
def dedupeAux (seen : List String) : List String → List String
  | [] => []
  | x :: xs =>
    if seen.contains x then dedupeAux seen xs
    else x :: dedupeAux (x :: seen) xs

/-- First-occurrence deduplication (see `dedupeAux`). -/
def dedupe (l : List String) : List String := dedupeAux [] l

/-- The scanner for the note-link regex `/\[\[([^\]]+)\]\]/g` shared by
`extractNoteLinks` (`src/lib/link-utils.ts`, lines 9–15) and the
note-link removal of `processContentForExport`
(`src/lib/export-utils.ts`, line 444).  At `[[`, the group `([^\]]+)` is
the maximal non-empty run of characters other than `]`, which must be
followed by `]]`; on a failed attempt the scan advances one character (the
regex engine restarts at the next index); a successful match resumes after
the closing `]]`.  Returns the text with each match replaced by its group
(the `"$1"` replacement) together with the trimmed group of every match in
order (the `links.push(match[1].trim())` collection).  The fuel argument
is the input length; each step consumes at least one character. -/
def noteLinkAux : Nat → List Char → List Char × List String
  | 0, l => (l, [])
  | _ + 1, [] => ([], [])
  | fuel + 1, c :: cs =>
    if c = '[' ∧ cs.head? = some '[' then
      let rest := cs.tail
      let inner := rest.takeWhile (fun ch => ch ≠ ']')
      let after := rest.dropWhile (fun ch => ch ≠ ']')
      if inner ≠ [] ∧ after.take 2 = [']', ']'] then
        let r := noteLinkAux fuel (after.drop 2)
        (inner ++ r.1, jsTrim (String.mk inner) :: r.2)
      else
        let r := noteLinkAux fuel cs
        (c :: r.1, r.2)
    else
      let r := noteLinkAux fuel cs
      (c :: r.1, r.2)

/-- Character-level note-link stripping: the
`.replace(/\[\[([^\]]+)\]\]/g, "$1")` of `processContentForExport`
(`src/lib/export-utils.ts`, line 444). -/
def noteLinkStripChars (l : List Char) : List Char :=
  (noteLinkAux l.length l).1

/-- `extractNoteLinks(content)` of `src/lib/link-utils.ts` (lines 7–18):
collect the trimmed first group of every match of
`/\[\[([^\]]+)\]\]/g`, in order, and deduplicate preserving first
occurrence. -/
def extractNoteLinks (content : String) : List String :=
  dedupe (noteLinkAux content.data.length content.data).2

namespace ExportUtils

/-- `processContentForExport(content)` of `src/lib/export-utils.ts`
(lines 416–447), modelled for contents that contain no
`cornell-image://` reference: the image-replacement loop then has zero
regex matches and leaves the content untouched, and the remaining effect
is the note-link removal `.replace(/\[\[([^\]]+)\]\]/g, "$1")`.  Every
input this development evaluates or quantifies over is in that domain. -/
def processContentForExport (content : String) : String :=
  String.mk (noteLinkStripChars content.data)

/-- Result of one `exportToPdf` call, keeping the quantities the claims
observe: the sections handed to the layout loop, the note links listed in
the Related Notes section, and the filename passed to `downloadBlob`. -/
structure PdfExportResult where
  sections : List NoteSection
  noteLinks : List String
  downloadedFile : Option String
deriving DecidableEq

/-- The orchestration of `exportToPdf(title, summary, markdown, font)`
(`src/lib/export-utils.ts`, lines 81–355): the markdown is pre-processed
by `processContentForExport`, split into sections by `parseMarkdown`, and
the note links are extracted from the **original** markdown; the body
contains no conditional abort — in particular no section-count check — so
the function always reaches `downloadBlob` with the title-derived
filename (the only `throw` re-wraps an exception of the underlying PDF
library, which the drawing model below cannot raise).  Drawing itself is
modelled separately by `renderMarkdownContent` and the block renderers. -/
def exportToPdf (title summary markdown : String) : PdfExportResult :=
  let processedMarkdown := processContentForExport markdown
  let sections := parseMarkdown processedMarkdown
  let noteLinks := extractNoteLinks markdown
  { sections := sections
    noteLinks := noteLinks
    downloadedFile := some (pdfFilename title) }

end ExportUtils

namespace AnkiExport

/-- Replace the first occurrence of `pat` in `s` by `rep`: the semantics
of JavaScript's `String.replace` with a string pattern, used by
`processImagesForAnki` to substitute a matched token. -/
def replaceFirst (s pat rep : String) : String :=
  match jsSplitOn s pat with
  | [] => s
  | [_] => s
  | p :: rest => p ++ rep ++ jsIntercalate pat rest

/-- The matcher of the markdown-image regex of `processImagesForAnki`
(`src/lib/anki-export-utils.ts`, line 187), exactly as it appears in the
source: `/!\[(.*?)\]$$(.*?)$$/g`.  The two `$` anchors after `\]` force
the `]` to be the last character of the input (the second group can only
match the empty string between them), so the regex matches precisely when
the input ends with a suffix `![alt]` in which `alt` is newline-free, and
the captured source group is always empty.  Returns the `alt` group of
the leftmost such match. -/
def mdImageScan : List Char → Option (List Char)
  | [] => none
  | c :: cs =>
    if c = '!' ∧ cs.head? = some '[' then
      let tail := cs.tail
      if tail.getLast? = some ']' ∧ tail.dropLast.all (fun ch => ch ≠ '\n') then
        some tail.dropLast
      else mdImageScan cs
    else mdImageScan cs

/-- The markdown-image phase of `processImagesForAnki`
(`src/lib/anki-export-utils.ts`, lines 186–196): for the (at most one —
after a match the regex's `lastIndex` sits at the end of the input) match
of `/!\[(.*?)\]$$(.*?)$$/g`, build the HTML image
`<img src="${src}" alt="${alt}">` with `src = match[2]` (always empty,
see `mdImageScan`) and `alt = match[1] || "Image"`, and substitute it for
the first occurrence of the matched token.  No store-id resolution or
image collection happens in this phase. -/
def processMarkdownImages (content : String) : String :=
  match mdImageScan content.data with
  | none => content
  | some altChars =>
    let altGroup := String.mk altChars
    let alt := if altGroup = "" then "Image" else altGroup
    let fullMatch := "![" ++ altGroup ++ "]"
    replaceFirst content fullMatch
      ("<img src=\"\" alt=\"" ++ alt ++ "\">")

end AnkiExport

namespace ExportUtils

/-- A drawing command recorded against the jsPDF document: the text,
line, and filled-rectangle calls of the renderers, tagged with the page
they are issued on.  `textBlock` is `doc.text` applied to an array of
lines (the heading branch).  Font, color, and line-width calls are not
recorded: they produce no geometry and no claim observes them. -/
inductive Op
  | text (s : String) (x y : ℚ) (page : Nat)
  | textBlock (ls : List String) (x y : ℚ) (page : Nat)
  | line (x1 y1 x2 y2 : ℚ) (page : Nat)
  | rect (x y w h : ℚ) (page : Nat)
deriving DecidableEq

/-- The jsPDF document state threaded through the renderers: the current
page number (starting at 1) and the drawing commands issued so far. -/
structure Doc where
  page : Nat
  ops : List Op
deriving DecidableEq

/-- `doc.text(s, x, y)`. -/
def Doc.text (d : Doc) (s : String) (x y : ℚ) : Doc :=
  { d with ops := d.ops ++ [Op.text s x y d.page] }

/-- `doc.text(lines, x, y)` with an array argument. -/
def Doc.textBlock (d : Doc) (ls : List String) (x y : ℚ) : Doc :=
  { d with ops := d.ops ++ [Op.textBlock ls x y d.page] }

/-- `doc.line(x1, y1, x2, y2)`. -/
def Doc.drawLine (d : Doc) (x1 y1 x2 y2 : ℚ) : Doc :=
  { d with ops := d.ops ++ [Op.line x1 y1 x2 y2 d.page] }

/-- `doc.rect(x, y, w, h, "F")`. -/
def Doc.rect (d : Doc) (x y w h : ℚ) : Doc :=
  { d with ops := d.ops ++ [Op.rect x y w h d.page] }

/-- `doc.addPage()`: a fresh page becomes current. -/
def Doc.addPage (d : Doc) : Doc := { d with page := d.page + 1 }

/-- The text-measurement facility of jsPDF, abstracted:
`split s w` is `doc.splitTextToSize(s, w)` and `width s` is
`doc.getTextWidth(s)`.  Both depend on font metrics outside this model;
the theorems below hold for every instantiation, and closed evaluations
fix a concrete one. -/
structure Metrics where
  split : String → ℚ → List String
  width : String → ℚ

/-- `findStarStar l` locates the closing `**` of the lazy group in
`/\*\*(.*?)\*\*/`: the group takes the characters before the first `**`
occurrence, and fails if a newline (never matched by `.`) intervenes.
Returns the group and the text after the closing `**`. -/
def findStarStar : List Char → Option (List Char × List Char)
  | [] => none
  | '*' :: '*' :: rest => some ([], rest)
  | '\n' :: _ => none
  | c :: cs => (findStarStar cs).map (fun p => (c :: p.1, p.2))

/-- The global replacement `.replace(/\*\*(.*?)\*\*/g, "$1")` of
`cleanMarkdown` (`src/lib/export-utils.ts`, line 452).  On a failed
attempt at a `**` the scan advances one character.  Fuel is the input
length. -/
def stripBoldAux : Nat → List Char → List Char
  | 0, l => l
  | _ + 1, [] => []
  | fuel + 1, c :: cs =>
    if c = '*' ∧ cs.head? = some '*' then
      match findStarStar cs.tail with
      | some (inner, rest) => inner ++ stripBoldAux fuel rest
      | none => c :: stripBoldAux fuel cs
    else c :: stripBoldAux fuel cs

/-- `findStar l` locates the closing `*` of the lazy group in
`/\*(.*?)\*/`, as `findStarStar` does for `**`. -/
def findStar : List Char → Option (List Char × List Char)
  | [] => none
  | '*' :: rest => some ([], rest)
  | '\n' :: _ => none
  | c :: cs => (findStar cs).map (fun p => (c :: p.1, p.2))

/-- The global replacement `.replace(/\*(.*?)\*/g, "$1")` of
`cleanMarkdown` (`src/lib/export-utils.ts`, line 452). -/
def stripItalicAux : Nat → List Char → List Char
  | 0, l => l
  | _ + 1, [] => []
  | fuel + 1, c :: cs =>
    if c = '*' then
      match findStar cs with
      | some (inner, rest) => inner ++ stripItalicAux fuel rest
      | none => c :: stripItalicAux fuel cs
    else c :: stripItalicAux fuel cs

/-- The global replacement ``.replace(/`([^`]+)`/g, "$1")`` of
`cleanMarkdown` (`src/lib/export-utils.ts`, line 455): the group is a
maximal non-empty backtick-free run that must be followed by a closing
backtick. -/
def stripCodeAux : Nat → List Char → List Char
  | 0, l => l
  | _ + 1, [] => []
  | fuel + 1, c :: cs =>
    if c = '`' then
      let inner := cs.takeWhile (fun ch => ch ≠ '`')
      let after := cs.dropWhile (fun ch => ch ≠ '`')
      if inner ≠ [] ∧ after.head? = some '`' then
        inner ++ stripCodeAux fuel after.tail
      else c :: stripCodeAux fuel cs
    else c :: stripCodeAux fuel cs

/-- `cleanMarkdown(text)` of `src/lib/export-utils.ts` (lines 450–458):
strip bold markers, then italic markers, then inline-code backticks,
keeping the enclosed text. -/
def cleanMarkdown (text : String) : String :=
  let bold := stripBoldAux text.data.length text.data
  let italic := stripItalicAux bold.length bold
  String.mk (stripCodeAux italic.length italic)

/-- The table-row filter of `renderTable` and the table-start test of
`renderMarkdownContent` (`src/lib/export-utils.ts`, lines 472 and 894):
the trimmed line starts and ends with `|`. -/
def pipeBounded (line : String) : Bool :=
  jsStartsWith (jsTrim line) "|" && jsEndsWith (jsTrim line) "|"

/-- `row.split("|").slice(1, -1).map(trim)`: the cell texts of a table
row. -/
def splitCells (row : String) : List String :=
  (((jsSplitOn row "|").drop 1).dropLast).map jsTrim

/-- The alignment of column `colIndex`, read from the separator row as
`renderTable` does (`src/lib/export-utils.ts`, lines 512–520): the raw
separator cells are `split("|").slice(1, -1)`; a missing or empty cell
falls back to `"---"` (JavaScript `||`); the cell is then classified by
`pdfAlignmentOf`. -/
def tableAlignAt (separatorRow : String) (colIndex : Nat) : String :=
  let separatorCells := ((jsSplitOn separatorRow "|").drop 1).dropLast
  let alignmentCell :=
    match separatorCells.get? colIndex with
    | some cell => if cell = "" then "---" else cell
    | none => "---"
  pdfAlignmentOf alignmentCell

/-- The x position of a cell's text for a given alignment
(`src/lib/export-utils.ts`, lines 523–528), with `cellPadding = 3`. -/
def cellTextX (currentX columnWidth : ℚ) (align : String) : ℚ :=
  if align = "center" then currentX + columnWidth / 2
  else if align = "right" then currentX + columnWidth - 3
  else currentX + 3

/-- The header-drawing loop of `renderTable`
(`src/lib/export-utils.ts`, lines 506–537, duplicated verbatim at
561–592 for continuation pages): one text command per header column at
vertical position `currentY + rowHeight/2 + 1`, advancing `currentX` by
the fixed column width. -/
def drawTableHeaderAux (separatorRow : String) (columnWidth currentY : ℚ) :
    Doc → ℚ → Nat → List String → Doc
  | doc, _, _, [] => doc
  | doc, currentX, colIndex, col :: rest =>
    let align := tableAlignAt separatorRow colIndex
    let textX := cellTextX currentX columnWidth align
    let doc := doc.text (cleanMarkdown col) textX (currentY + 8 / 2 + 1)
    drawTableHeaderAux separatorRow columnWidth currentY doc (currentX + columnWidth)
      (colIndex + 1) rest

/-- The per-cell multi-line text drawing of a table data row
(`src/lib/export-utils.ts`, lines 641–646): line `i` of the wrapped cell
text is drawn at `textY + i * lineHeight`. -/
def drawCellLines (textX textY : ℚ) : Doc → Nat → List String → Doc
  | doc, _, [] => doc
  | doc, i, l :: ls =>
    drawCellLines textX textY (doc.text l textX (textY + (i : ℚ) * 6)) (i + 1) ls

/-- The cell loop of a table data row (`src/lib/export-utils.ts`,
lines 609–650): cells beyond the header's column count are ignored (and
do not advance `currentX`); each drawn cell wraps its cleaned text to the
column width minus twice the cell padding and is top-aligned at
`currentY + cellPadding`. -/
def drawTableRowCells (M : Metrics) (separatorRow : String) (columnsLen : Nat)
    (columnWidth currentY : ℚ) : Doc → ℚ → Nat → List String → Doc
  | doc, _, _, [] => doc
  | doc, currentX, colIndex, cell :: rest =>
    if colIndex < columnsLen then
      let align := tableAlignAt separatorRow colIndex
      let textX := cellTextX currentX columnWidth align
      let cellText := cleanMarkdown cell
      let cellLines := M.split cellText (columnWidth - 3 * 2)
      let textY := currentY + 3
      let doc := drawCellLines textX textY doc 0 cellLines
      drawTableRowCells M separatorRow columnsLen columnWidth currentY doc
        (currentX + columnWidth) (colIndex + 1) rest
    else
      drawTableRowCells M separatorRow columnsLen columnWidth currentY doc
        currentX (colIndex + 1) rest

/-- The data-row loop of `renderTable` (`src/lib/export-utils.ts`,
lines 549–661): before each row, a row that would cross the printable
bottom triggers a page break with the header redrawn and a fresh header
separator line; the row's cells are then drawn, the cursor advances by
the fixed row height, and a light separator line follows every row but
the last. -/
def tableRowsLoop (M : Metrics) (columns : List String) (separatorRow : String)
    (x totalWidth columnWidth pageHeight margin : ℚ) :
    Doc → ℚ → List String → Doc × ℚ
  | doc, currentY, [] => (doc, currentY)
  | doc, currentY, row :: rest =>
    let s :=
      if currentY + 8 > pageHeight - margin then
        let doc := doc.addPage
        let currentY : ℚ := margin
        let doc := drawTableHeaderAux separatorRow columnWidth currentY doc x 0 columns
        let currentY := currentY + 8
        let doc := doc.drawLine x currentY (x + totalWidth) currentY
        (doc, currentY)
      else (doc, currentY)
    let cells := splitCells row
    let doc := drawTableRowCells M separatorRow columns.length columnWidth s.2 s.1 x 0 cells
    let currentY := s.2 + 8
    let doc := if rest ≠ [] then doc.drawLine x currentY (x + totalWidth) currentY else doc
    tableRowsLoop M columns separatorRow x totalWidth columnWidth pageHeight margin
      doc currentY rest

/-- `renderTable(doc, tableText, x, y, maxWidth, pageHeight, margin,
fontSettings)` of `src/lib/export-utils.ts` (lines 461–664): filter the
pipe-bounded rows; fewer than two rows is not a table and returns the
cursor untouched; otherwise draw the header (after a page break if two
row heights do not fit), a header separator line, then the data rows, and
return the cursor plus a trailing padding of 4.  The column width divides
`maxWidth - 10` by the column count (for a zero-column header JavaScript
yields `Infinity` where `ℚ` yields `0`; only x coordinates of draw
commands differ in that degenerate case, never the cursor). -/
def renderTable (M : Metrics) (doc : Doc) (tableText : List String)
    (x y maxWidth pageHeight margin : ℚ) : Doc × ℚ :=
  let tableRows := tableText.filter pipeBounded
  if tableRows.length < 2 then (doc, y)
  else
    let headerRow := tableRows.headD ""
    let separatorRow := tableRows.getD 1 ""
    let contentRows := tableRows.drop 2
    let columns := splitCells headerRow
    let totalWidth := maxWidth - 10
    let columnWidth := totalWidth / (columns.length : ℚ)
    let s :=
      if y + 8 * 2 > pageHeight - margin then (doc.addPage, (margin : ℚ)) else (doc, y)
    let doc := drawTableHeaderAux separatorRow columnWidth s.2 s.1 x 0 columns
    let currentY := s.2 + 8
    let doc := doc.drawLine x currentY (x + totalWidth) currentY
    let r := tableRowsLoop M columns separatorRow x totalWidth columnWidth pageHeight margin
      doc currentY contentRows
    (r.1, r.2 + 4)

/-- The per-line loop of `renderCodeBlock` (`src/lib/export-utils.ts`,
lines 756–776): a line that would cross the printable bottom triggers a
page break with the background rectangle redrawn for the remaining lines
(capped to the printable height); each line is drawn at `currentY + 7`
and advances the cursor one line height. -/
def codeLinesLoop (x maxWidth pageHeight margin : ℚ) :
    Doc → ℚ → List String → Doc × ℚ
  | doc, currentY, [] => (doc, currentY)
  | doc, currentY, l :: ls =>
    let s :=
      if currentY + 6 > pageHeight - margin then
        let remaining : ℚ := ((l :: ls).length : ℚ)
        let doc := doc.addPage
        let currentY : ℚ := margin
        let remainingHeight := min (remaining * 6 + 6) (pageHeight - margin - currentY)
        (doc.rect x currentY maxWidth remainingHeight, currentY)
      else (doc, currentY)
    let doc := s.1.text l (x + 3) (s.2 + 5 + 2)
    codeLinesLoop x maxWidth pageHeight margin doc (s.2 + 6) ls

/-- `renderCodeBlock(doc, codeLines, x, y, maxWidth, pageHeight, margin,
fontSettings)` of `src/lib/export-utils.ts` (lines 726–779): when the
whole block does not fit below the cursor it starts on a fresh page; the
tinted background rectangle is drawn sized to the block (capped to the
printable height), the lines are drawn with per-line page breaks, and the
returned cursor carries a trailing padding of 2. -/
def renderCodeBlock (doc : Doc) (codeLines : List String)
    (x y maxWidth pageHeight margin : ℚ) : Doc × ℚ :=
  let s :=
    if y + 6 * (codeLines.length : ℚ) + 6 > pageHeight - margin then
      (doc.addPage, (margin : ℚ))
    else (doc, y)
  let blockHeight := min ((codeLines.length : ℚ) * 6 + 6) (pageHeight - margin - s.2)
  let doc := s.1.rect x s.2 maxWidth blockHeight
  let r := codeLinesLoop x maxWidth pageHeight margin doc s.2 codeLines
  (r.1, r.2 + 2)

end ExportUtils

namespace ExportUtils

/-- The wrapped-line loop of one list item (`src/lib/export-utils.ts`,
lines 709–719): per-line page-break check, text at the indent after the
marker, one line height per line. -/
def listItemLines (x markerWidth pageHeight margin : ℚ) :
    Doc → ℚ → List String → Doc × ℚ
  | doc, currentY, [] => (doc, currentY)
  | doc, currentY, tl :: tls =>
    let s :=
      if currentY + 6 > pageHeight - margin then (doc.addPage, (margin : ℚ))
      else (doc, currentY)
    let doc := s.1.text tl (x + markerWidth + 5) (s.2 + 2)
    listItemLines x markerWidth pageHeight margin doc (s.2 + 6) tls

/-- The item loop of `renderList` (`src/lib/export-utils.ts`,
lines 686–720): per-item page-break check, the bullet or `n.` marker
drawn at the left edge, the item's cleaned trimmed text wrapped into the
width remaining after the measured marker and the indent of 5. -/
def listItemsLoop (M : Metrics) (x maxWidth pageHeight margin : ℚ)
    (isNumbered : Bool) : Doc → ℚ → Nat → List String → Doc × ℚ
  | doc, currentY, _, [] => (doc, currentY)
  | doc, currentY, index, item :: rest =>
    let s :=
      if currentY + 6 > pageHeight - margin then (doc.addPage, (margin : ℚ))
      else (doc, currentY)
    let marker := if isNumbered then toString (index + 1) ++ "." else "•"
    let markerWidth := M.width (if isNumbered then marker ++ " " else marker ++ "  ")
    let doc := s.1.text marker x (s.2 + 2)
    let itemText := cleanMarkdown (jsTrim item)
    let textLines := M.split itemText (maxWidth - markerWidth - 5)
    let r := listItemLines x markerWidth pageHeight margin doc s.2 textLines
    listItemsLoop M x maxWidth pageHeight margin isNumbered r.1 r.2 (index + 1) rest

/-- `renderList(doc, listItems, x, y, maxWidth, isNumbered, pageHeight,
margin, fontSettings)` of `src/lib/export-utils.ts` (lines 667–723):
render the items and return the cursor with a trailing padding of 2. -/
def renderList (M : Metrics) (doc : Doc) (listItems : List String)
    (x y maxWidth : ℚ) (isNumbered : Bool) (pageHeight margin : ℚ) : Doc × ℚ :=
  let r := listItemsLoop M x maxWidth pageHeight margin isNumbered doc y 0 listItems
  (r.1, r.2 + 2)

/-- The wrapped-line loop of `renderBlockquote`
(`src/lib/export-utils.ts`, lines 817–834): before a page break the
vertical quote bar of the finished segment is drawn from `startY` down to
the current cursor; the segment restarts at the top margin.  State is
`(doc, currentY, startY)`. -/
def quoteTextLines (x pageHeight margin : ℚ) :
    Doc → ℚ → ℚ → List String → Doc × ℚ × ℚ
  | doc, currentY, startY, [] => (doc, currentY, startY)
  | doc, currentY, startY, tl :: tls =>
    let s :=
      if currentY + 6 > pageHeight - margin then
        let doc := doc.drawLine x startY x currentY
        (doc.addPage, (margin : ℚ), (margin : ℚ))
      else (doc, currentY, startY)
    let doc := s.1.text tl (x + 5) (s.2.1 + 2)
    quoteTextLines x pageHeight margin doc (s.2.1 + 6) s.2.2 tls

/-- The outer quote-line loop of `renderBlockquote`
(`src/lib/export-utils.ts`, lines 813–835): each source quote line is
cleaned, trimmed, and wrapped to the width minus the bar indent of 5. -/
def quoteLinesLoop (M : Metrics) (x maxWidth pageHeight margin : ℚ) :
    Doc → ℚ → ℚ → List String → Doc × ℚ × ℚ
  | doc, currentY, startY, [] => (doc, currentY, startY)
  | doc, currentY, startY, l :: ls =>
    let textLines := M.split (cleanMarkdown (jsTrim l)) (maxWidth - 5)
    let r := quoteTextLines x pageHeight margin doc currentY startY textLines
    quoteLinesLoop M x maxWidth pageHeight margin r.1 r.2.1 r.2.2 ls

/-- `renderBlockquote(doc, quoteLines, x, y, maxWidth, pageHeight,
margin, fontSettings)` of `src/lib/export-utils.ts` (lines 782–845): an
initial page-break check, the quote lines with per-segment bars, the bar
of the final segment, and a trailing padding of 2. -/
def renderBlockquote (M : Metrics) (doc : Doc) (quoteLines : List String)
    (x y maxWidth pageHeight margin : ℚ) : Doc × ℚ :=
  let s :=
    if y + 6 > pageHeight - margin then (doc.addPage, (margin : ℚ), (margin : ℚ))
    else (doc, y, y)
  let r := quoteLinesLoop M x maxWidth pageHeight margin s.1 s.2.1 s.2.2 quoteLines
  let doc := r.1.drawLine x r.2.2 x r.2.1
  (doc, r.2.1 + 2)

/-- The section index bookkeeping passed into the renderers
(`src/lib/export-utils.ts`, lines 188–191). -/
structure SectionInfo where
  currentSection : Nat
  totalSections : Nat

/-- A page break inside `renderMarkdownContent`'s flowing text
(`src/lib/export-utils.ts`, lines 870–884 and 1007–1021): a new page,
and — when the current section is not the last — the vertical divider
between the key-point column and the notes column redrawn over the new
page's full printable height. -/
def pageBreakWithDivider (doc : Doc) (pageHeight margin keyPointsWidth : ℚ)
    (si : SectionInfo) : Doc :=
  let doc := doc.addPage
  if (si.currentSection : Int) < (si.totalSections : Int) - 1 then
    doc.drawLine (margin + keyPointsWidth) margin (margin + keyPointsWidth)
      (pageHeight - margin)
  else doc

/-- The wrapped-paragraph loop of `renderMarkdownContent`
(`src/lib/export-utils.ts`, lines 1005–1025): per-line page break (with
section divider), text at `currentY + 2`, one line height per line. -/
def paragraphLinesLoop (x pageHeight margin keyPointsWidth : ℚ)
    (si : SectionInfo) : Doc → ℚ → List String → Doc × ℚ
  | doc, currentY, [] => (doc, currentY)
  | doc, currentY, tl :: tls =>
    let s :=
      if currentY + 6 > pageHeight - margin then
        (pageBreakWithDivider doc pageHeight margin keyPointsWidth si, (margin : ℚ))
      else (doc, currentY)
    let doc := s.1.text tl x (s.2 + 2)
    paragraphLinesLoop x pageHeight margin keyPointsWidth si doc (s.2 + 6) tls

/-- The unordered-list line test `line.trim().match(/^[-*]\s/)`
(`src/lib/export-utils.ts`, line 934). -/
def ulistLine (line : String) : Bool :=
  match (jsTrim line).data with
  | c :: d :: _ => (c == '-' || c == '*') && isJsWs d
  | _ => false

/-- The ordered-list line test `line.trim().match(/^\d+\.\s/)`
(`src/lib/export-utils.ts`, line 946). -/
def olistLine (line : String) : Bool :=
  let t := (jsTrim line).data
  let digits := t.takeWhile Char.isDigit
  let rest := t.dropWhile Char.isDigit
  !digits.isEmpty &&
    (match rest with
     | '.' :: d :: _ => isJsWs d
     | _ => false)

/-- The sub-heading line test `line.trim().match(/^#{2,6}\s/)`
(`src/lib/export-utils.ts`, line 958): a run of two to six `#` followed
by a whitespace character (a run of more than six `#` cannot match, since
every admissible repetition count is then followed by another `#`). -/
def headingLine (line : String) : Bool :=
  let t := (jsTrim line).data
  let hashes := t.takeWhile (fun c => c == '#')
  let rest := t.dropWhile (fun c => c == '#')
  2 ≤ hashes.length && hashes.length ≤ 6 &&
    (match rest with
     | d :: _ => isJsWs d
     | _ => false)

/-- `s.substring(s.indexOf(c) + 1)`: everything after the first
occurrence of `c`, or the whole string when `c` does not occur
(`indexOf` yields `-1` and `substring(0)` is the identity).  Used for the
blockquote `>` strip and the list-item text extraction
(`src/lib/export-utils.ts`, lines 925, 937, 949). -/
def afterFirstChar (c : Char) (s : String) : String :=
  match s.data.findIdx? (fun ch => ch == c) with
  | some i => String.mk (s.data.drop (i + 1))
  | none => s

/-- `t.indexOf(" ")` as used by the heading branch
(`src/lib/export-utils.ts`, line 959): the index of the first space, or
`-1`. -/
def idxOfSpace (t : String) : Int :=
  match t.data.findIdx? (fun ch => ch == ' ') with
  | some i => (i : Int)
  | none => -1

/-- The line-dispatch loop of `renderMarkdownContent`
(`src/lib/export-utils.ts`, lines 865–1030), with the branches in source
order: per-iteration page-break check (with section divider); empty lines
advance the cursor by a third of a line height; a pipe-bounded line opens
a table run handed to `renderTable`; a ``` ``` `` fence collects the code
block (closing fence consumed, unterminated blocks absorb the rest); a
`>` run becomes a blockquote with the text after each line's first `>`;
`-`/`*` and `n.` runs become lists with the text after each line's first
space or dot; `##`–`######` lines are sub-headings (page-broken as a
whole, no divider redrawn); lines containing an HTML or markdown image
token are skipped; everything else is a wrapped paragraph followed by a
0.6 gap.  The fuel starts at the line count; every iteration consumes at
least one line. -/
def renderLinesAux (M : Metrics) (x maxWidth pageHeight margin keyPointsWidth : ℚ)
    (si : SectionInfo) : Nat → Doc → ℚ → List String → Doc × ℚ
  | 0, doc, currentY, _ => (doc, currentY)
  | _ + 1, doc, currentY, [] => (doc, currentY)
  | fuel + 1, doc, currentY, line :: rest =>
    let s :=
      if currentY + 6 > pageHeight - margin then
        (pageBreakWithDivider doc pageHeight margin keyPointsWidth si, (margin : ℚ))
      else (doc, currentY)
    let doc := s.1
    let currentY := s.2
    if jsTrim line = "" then
      renderLinesAux M x maxWidth pageHeight margin keyPointsWidth si fuel
        doc (currentY + 6 / 3) rest
    else if pipeBounded line then
      let tableLines := (line :: rest).takeWhile pipeBounded
      let rest' := (line :: rest).dropWhile pipeBounded
      let r := renderTable M doc tableLines x currentY maxWidth pageHeight margin
      renderLinesAux M x maxWidth pageHeight margin keyPointsWidth si fuel r.1 r.2 rest'
    else if jsStartsWith (jsTrim line) "```" then
      let codeLines := rest.takeWhile (fun l => !(jsStartsWith (jsTrim l) "```"))
      let rest' := (rest.dropWhile (fun l => !(jsStartsWith (jsTrim l) "```"))).drop 1
      let r := renderCodeBlock doc codeLines x currentY maxWidth pageHeight margin
      renderLinesAux M x maxWidth pageHeight margin keyPointsWidth si fuel r.1 r.2 rest'
    else if jsStartsWith (jsTrim line) ">" then
      let quoteLines :=
        ((line :: rest).takeWhile (fun l => jsStartsWith (jsTrim l) ">")).map (afterFirstChar '>')
      let rest' := (line :: rest).dropWhile (fun l => jsStartsWith (jsTrim l) ">")
      let r := renderBlockquote M doc quoteLines x currentY maxWidth pageHeight margin
      renderLinesAux M x maxWidth pageHeight margin keyPointsWidth si fuel r.1 r.2 rest'
    else if ulistLine line then
      let listItems := ((line :: rest).takeWhile ulistLine).map (afterFirstChar ' ')
      let rest' := (line :: rest).dropWhile ulistLine
      let r := renderList M doc listItems x currentY maxWidth false pageHeight margin
      renderLinesAux M x maxWidth pageHeight margin keyPointsWidth si fuel r.1 r.2 rest'
    else if olistLine line then
      let listItems := ((line :: rest).takeWhile olistLine).map (afterFirstChar '.')
      let rest' := (line :: rest).dropWhile olistLine
      let r := renderList M doc listItems x currentY maxWidth true pageHeight margin
      renderLinesAux M x maxWidth pageHeight margin keyPointsWidth si fuel r.1 r.2 rest'
    else if headingLine line then
      let t := jsTrim line
      let level := idxOfSpace t
      let headingText := String.mk (t.data.drop (level + 1).toNat)
      let textLines := M.split (cleanMarkdown headingText) maxWidth
      let s2 :=
        if currentY + (textLines.length : ℚ) * 6 + 2 > pageHeight - margin then
          (doc.addPage, (margin : ℚ))
        else (doc, currentY)
      let doc := s2.1.textBlock textLines x (s2.2 + 2)
      renderLinesAux M x maxWidth pageHeight margin keyPointsWidth si fuel
        doc (s2.2 + (textLines.length : ℚ) * 6 + 2) rest
    else if hasSub "<img" line && hasSub "src=" line then
      renderLinesAux M x maxWidth pageHeight margin keyPointsWidth si fuel doc currentY rest
    else if hasSub "![" line && hasSub "](" line then
      renderLinesAux M x maxWidth pageHeight margin keyPointsWidth si fuel doc currentY rest
    else
      let textLines := M.split (cleanMarkdown line) maxWidth
      let r := paragraphLinesLoop x pageHeight margin keyPointsWidth si doc currentY textLines
      renderLinesAux M x maxWidth pageHeight margin keyPointsWidth si fuel
        r.1 (r.2 + 6 / 10) rest

/-- `renderMarkdownContent(doc, content, x, y, maxWidth, pageHeight,
margin, keyPointsWidth, fullWidth, sectionInfo, fontSettings)` of
`src/lib/export-utils.ts` (lines 848–1033); the `fullWidth` argument is
unused by the source function and omitted here. -/
def renderMarkdownContent (M : Metrics) (doc : Doc) (content : String)
    (x y maxWidth pageHeight margin keyPointsWidth : ℚ) (si : SectionInfo) :
    Doc × ℚ :=
  let lines := jsSplitOn content "\n"
  renderLinesAux M x maxWidth pageHeight margin keyPointsWidth si lines.length doc y lines

end ExportUtils

/-- A concrete instantiation of the abstract text-measurement facility,
used by closed evaluations: every string fits on one line and measures
its character count. -/
def unitMetrics : ExportUtils.Metrics :=
  { split := fun s _ => [s], width := fun s => (s.length : ℚ) }

/-- No two adjacent characters are both non-alphanumeric. -/
def noAdjacentNonAlnum : List Char → Bool
  | a :: b :: rest => (isAsciiAlnum a || isAsciiAlnum b) && noAdjacentNonAlnum (b :: rest)
  | _ => true

/-- Titles on which the filename rule claimed by the specification and
the two implemented rules coincide: every character is alphanumeric or a
space, and non-alphanumeric characters are isolated. -/
def goodTitle (l : List Char) : Bool :=
  l.all (fun c => isAsciiAlnum c || c == ' ') && noAdjacentNonAlnum l

/-- With an empty pending heading, the content accumulated so far never
reaches any section: `parseMdAux` ignores it (it is dropped at the first
heading, or at the end of input). -/
theorem parseMdAux_empty_heading (ls : List String) :
    ∀ c : List String, ExportUtils.parseMdAux "" c ls = ExportUtils.parseMdAux "" [] ls := by
  induction ls with
  | nil => intro c; simp [ExportUtils.parseMdAux]
  | cons l ls ih =>
    intro c
    by_cases hl : jsStartsWith l "# " = true
    · simp [ExportUtils.parseMdAux, hl]
    · simp only [ExportUtils.parseMdAux, Bool.not_eq_true] at hl ⊢
      rw [hl]
      simp only [Bool.false_eq_true, if_false]
      rw [ih (c ++ [l]), ih ([] ++ [l])]

/-- Claim C9: `parseMarkdown` assigns every line occurring before the
first top-level `"# "` heading line to no section — the sections of a
document are exactly the sections of the document with its preamble lines
removed, so preamble text appears in no section's content and hence never
in the rendered PDF body. -/
theorem c9_preamble_discarded (markdown : String) :
    ExportUtils.parseMarkdown markdown =
      ExportUtils.parseMarkdownLines
        ((jsSplitOn markdown "\n").dropWhile (fun l => !(jsStartsWith l "# "))) := by
  show ExportUtils.parseMarkdownLines (jsSplitOn markdown "\n") = _
  generalize jsSplitOn markdown "\n" = ls
  unfold ExportUtils.parseMarkdownLines
  induction ls with
  | nil => rfl
  | cons l ls ih =>
    by_cases hl : jsStartsWith l "# " = true
    · simp [List.dropWhile, hl]
    · simp only [Bool.not_eq_true] at hl
      simp only [List.dropWhile, hl, Bool.not_false]
      rw [ExportUtils.parseMdAux]
      simp only [hl, Bool.false_eq_true, if_false]
      rw [parseMdAux_empty_heading ls ([] ++ [l])]
      exact ih

/-- Claim C7: the PDF table renderer and the flashcard table converter
derive column alignment from a separator-row cell by the same rule —
center when the trimmed cell starts and ends with `:`, right when it
merely ends with `:`, left otherwise — as also shown on the four
canonical separators. -/
theorem c7_alignment_equivalence :
    (∀ cell : String, ExportUtils.pdfAlignmentOf cell = AnkiExport.ankiAlignmentOf cell) ∧
    (∀ cell : String, ExportUtils.pdfAlignmentOf cell = ExportUtils.specAlignmentOf cell) ∧
    ExportUtils.pdfAlignmentOf ":---:" = "center" ∧
    ExportUtils.pdfAlignmentOf "---:" = "right" ∧
    ExportUtils.pdfAlignmentOf ":---" = "left" ∧
    ExportUtils.pdfAlignmentOf "---" = "left" := by
  refine ⟨fun c => rfl, fun c => rfl, ?_, ?_, ?_, ?_⟩ <;> decide

/-- Claim C8: for an image with positive intrinsic dimensions placed from
a data URL, the placed dimensions preserve the aspect ratio exactly, the
height never exceeds `maxImageHeight = 80`, and when the width-derived
height `maxWidth·h/w` exceeds the cap the height is clamped to the cap
with the width recomputed as `maxImageHeight·w/h`. -/
theorem c8_image_scaling (w h maxWidth : ℚ) (hw : 0 < w) (hh : 0 < h) (hmw : 0 < maxWidth) :
    (ExportUtils.imagePlacement w h maxWidth).1 / (ExportUtils.imagePlacement w h maxWidth).2 =
      w / h ∧
    (ExportUtils.imagePlacement w h maxWidth).2 ≤ ExportUtils.maxImageHeight ∧
    (ExportUtils.maxImageHeight < maxWidth * h / w →
      (ExportUtils.imagePlacement w h maxWidth).2 = ExportUtils.maxImageHeight ∧
      (ExportUtils.imagePlacement w h maxWidth).1 = ExportUtils.maxImageHeight * w / h) := by
  have hw' : w ≠ 0 := ne_of_gt hw
  have hh' : h ≠ 0 := ne_of_gt hh
  have hmw' : maxWidth ≠ 0 := ne_of_gt hmw
  have hratio : w / h ≠ 0 := div_ne_zero hw' hh'
  have h80 : ExportUtils.maxImageHeight ≠ 0 := by norm_num [ExportUtils.maxImageHeight]
  have him : maxWidth / (w / h) = maxWidth * h / w := div_div_eq_mul_div maxWidth w h
  by_cases hc : maxWidth / (w / h) ≤ ExportUtils.maxImageHeight
  · have hmin : min (maxWidth / (w / h)) ExportUtils.maxImageHeight = maxWidth / (w / h) :=
      min_eq_left hc
    have hplace : ExportUtils.imagePlacement w h maxWidth = (maxWidth, maxWidth / (w / h)) := by
      simp only [ExportUtils.imagePlacement]
      rw [hmin]
      simp
    rw [hplace]
    refine ⟨?_, hc, fun hgt => absurd hgt (not_lt.mpr (him ▸ hc))⟩
    rw [div_div_eq_mul_div]
    exact mul_div_cancel_left₀ (w / h) hmw'
  · push_neg at hc
    have hmin : min (maxWidth / (w / h)) ExportUtils.maxImageHeight = ExportUtils.maxImageHeight :=
      min_eq_right (le_of_lt hc)
    have hne : ExportUtils.maxImageHeight ≠ maxWidth / (w / h) := ne_of_lt hc
    have hplace : ExportUtils.imagePlacement w h maxWidth =
        (ExportUtils.maxImageHeight * (w / h), ExportUtils.maxImageHeight) := by
      simp only [ExportUtils.imagePlacement]
      rw [hmin, if_neg hne]
    rw [hplace]
    exact ⟨mul_div_cancel_left₀ (w / h) h80, le_refl _,
      fun _ => ⟨rfl, mul_div_assoc ExportUtils.maxImageHeight w h ▸ rfl⟩⟩

/-- Witness for `c8_image_scaling` at `w = 100`, `h = 100`,
`maxWidth = 115`: the width-derived height 115 exceeds the cap, so the
image is placed as an 80 × 80 square. -/
theorem c8_image_scaling_witness :
    ((0 : ℚ) < 100 ∧ (0 : ℚ) < 100 ∧ (0 : ℚ) < 115) ∧
    ((ExportUtils.imagePlacement 100 100 115).1 / (ExportUtils.imagePlacement 100 100 115).2 =
        100 / 100 ∧
      (ExportUtils.imagePlacement 100 100 115).2 ≤ ExportUtils.maxImageHeight ∧
      (ExportUtils.maxImageHeight < 115 * 100 / 100 →
        (ExportUtils.imagePlacement 100 100 115).2 = ExportUtils.maxImageHeight ∧
        (ExportUtils.imagePlacement 100 100 115).1 = ExportUtils.maxImageHeight * 100 / 100)) :=
  ⟨⟨by norm_num, by norm_num, by norm_num⟩,
    c8_image_scaling 100 100 115 (by norm_num) (by norm_num) (by norm_num)⟩

/-- Claim C1 (evaluation at the failing inputs): the claim says one card
per non-empty section.  The body `"# A\nfoo"` has exactly one non-empty
section and an empty summary, yet `parseNotesToFlashcards` yields two
identical cards: the second pass starts from the state left over by the
dead first pass, so the last section's card is emitted once at the first
heading line and again at the final flush.  On the specification's own
§8 scenario (two sections, empty summary) the code yields three cards
with fronts `B`, `A`, `B` instead of the claimed two. -/
theorem c1_flashcard_count_eval :
    AnkiExport.parseNotesToFlashcards (fun s => s) "T" "" "# A\nfoo" =
      [⟨"A", "foo"⟩, ⟨"A", "foo"⟩] ∧
    (AnkiExport.parseNotesToFlashcards (fun s => s) "" ""
        "# A\nHello\n\n# B\n- one\n- two").map AnkiExport.FlashCard.front =
      ["B", "A", "B"] := by
  refine ⟨?_, ?_⟩ <;> decide

/-- Claim C4 (evaluation at the failing input): the claim says markdown
image tokens `![alt](src)` are normalized to `<img>` and processed like
HTML images.  The source's regex is `/!\[(.*?)\]$$(.*?)$$/g`, whose `$`
anchors make it match only a trailing `![alt]` with an empty source
group, so the token `![pic](img.png)` is never matched: the content
passes through unchanged (the HTML-image loop is also a no-op, as the
content contains no `<img>`), no `<img>` tag is produced and no image is
collected.  The only inputs ever rewritten are those ending in `![alt]`,
which become `<img src="" alt="alt">` with an empty source. -/
theorem c4_markdown_image_eval :
    AnkiExport.processMarkdownImages "![pic](img.png)" = "![pic](img.png)" ∧
    hasSub "<img" "![pic](img.png)" = false ∧
    AnkiExport.processMarkdownImages "see ![pic]" = "see <img src=\"\" alt=\"pic\">" := by
  refine ⟨?_, ?_, ?_⟩ <;> decide

/-- When no line of the input opens a section, the heading state of the
first `parseNotesToFlashcards` pass stays empty. -/
theorem scanStep_fold_no_heading :
    ∀ (lines : List String) (s : String × List String),
      (∀ l ∈ lines, jsStartsWith l "# " = false) → s.1 = "" →
      (lines.foldl AnkiExport.scanStep s).1 = "" := by
  intro lines
  induction lines with
  | nil => intro s _ hs; exact hs
  | cons l ls ih =>
    intro s hall hs
    have hl : jsStartsWith l "# " = false := hall l (List.mem_cons_self l ls)
    have hstep : (AnkiExport.scanStep s l).1 = "" := by
      simp only [AnkiExport.scanStep, hl, Bool.false_eq_true, if_false, hs]
      simp [hs]
    exact ih (AnkiExport.scanStep s l) (fun x hx => hall x (List.mem_cons_of_mem l hx)) hstep

/-- When no line of the input opens a section and no heading is pending,
the card-emitting pass of `parseNotesToFlashcards` emits nothing. -/
theorem cardStep_fold_no_heading (clean : String → String) :
    ∀ (lines : List String) (s : AnkiExport.CardScan),
      (∀ l ∈ lines, jsStartsWith l "# " = false) → s.heading = "" →
      (lines.foldl (AnkiExport.cardStep clean) s).heading = "" ∧
      (lines.foldl (AnkiExport.cardStep clean) s).cards = s.cards := by
  intro lines
  induction lines with
  | nil => intro s _ hs; exact ⟨hs, rfl⟩
  | cons l ls ih =>
    intro s hall hs
    have hl : jsStartsWith l "# " = false := hall l (List.mem_cons_self l ls)
    have hstep : AnkiExport.cardStep clean s l = s := by
      simp only [AnkiExport.cardStep, hl, Bool.false_eq_true, if_false, hs]
      simp [hs]
    simp only [List.foldl_cons, hstep]
    exact ih s (fun x hx => hall x (List.mem_cons_of_mem l hx)) hs

/-- Claim C2 (counterexample): the claim says that for a body with zero
top-level headings both exporters throw and produce no file.  For the
body `"hello"` — which has zero `"# "` lines — `exportToPdf` reaches its
download step and hands `downloadBlob` the file `t.pdf`: the PDF path
performs no section-count check at all. -/
theorem c2_zero_heading_pdf_still_downloads :
    (∀ l ∈ jsSplitOn "hello" "\n", jsStartsWith l "# " = false) ∧
    (ExportUtils.exportToPdf "T" "" "hello").downloadedFile = some "t.pdf" := by
  refine ⟨?_, ?_⟩ <;> decide

/-- With no heading line in the body, the flashcards are exactly the
optional summary card: both passes leave the heading state empty, so no
section card is ever pushed or flushed. -/
theorem parseNotes_no_heading (clean : String → String) (title summary markdown : String)
    (hnh : ∀ l ∈ jsSplitOn markdown "\n", jsStartsWith l "# " = false) :
    AnkiExport.parseNotesToFlashcards clean title summary markdown =
      if jsTrim summary ≠ "" then [⟨title ++ " - Summary", clean summary⟩] else [] := by
  unfold AnkiExport.parseNotesToFlashcards
  have h1 : ((jsSplitOn markdown "\n").foldl AnkiExport.scanStep ("", [])).1 = "" :=
    scanStep_fold_no_heading _ _ hnh rfl
  have h2 := cardStep_fold_no_heading clean (jsSplitOn markdown "\n")
    ⟨((jsSplitOn markdown "\n").foldl AnkiExport.scanStep ("", [])).1,
     ((jsSplitOn markdown "\n").foldl AnkiExport.scanStep ("", [])).2,
     if jsTrim summary ≠ "" then [⟨title ++ " - Summary", clean summary⟩] else []⟩
    hnh h1
  simp only [AnkiExport.flushCard, h2.1]
  simp only [ite_not] at h2 ⊢
  simp [h2.1, h2.2]

/-- Claim C2 (amended): for a body with zero top-level headings,
`exportToAnki` throws the structural error **iff** the trimmed summary is
empty; with a non-empty trimmed summary it instead completes and
downloads the summary-only zip.  `exportToPdf` downloads a PDF for every
title, summary, and body whatsoever — it performs no section-count check
and never reports a structural error. -/
theorem c2_amended_structural_error (clean : String → String)
    (title summary markdown : String)
    (hnh : ∀ l ∈ jsSplitOn markdown "\n", jsStartsWith l "# " = false) :
    (AnkiExport.exportToAnki clean title summary markdown =
        Except.error
          "No flashcards could be generated from this note. Make sure you have headings (# sections) with content." ↔
      jsTrim summary = "") ∧
    (jsTrim summary ≠ "" →
      AnkiExport.exportToAnki clean title summary markdown =
        Except.ok (AnkiExport.ankiZipFilename title)) ∧
    (∀ t s m : String,
      (ExportUtils.exportToPdf t s m).downloadedFile = some (ExportUtils.pdfFilename t)) := by
  have hp := parseNotes_no_heading clean title summary markdown hnh
  by_cases hs : jsTrim summary = ""
  · rw [if_neg (by simpa using hs)] at hp
    have herr : AnkiExport.exportToAnki clean title summary markdown =
        Except.error
          "No flashcards could be generated from this note. Make sure you have headings (# sections) with content." := by
      unfold AnkiExport.exportToAnki
      simp [hp]
    exact ⟨⟨fun _ => hs, fun _ => herr⟩, fun hcon => absurd hs hcon, fun t s m => rfl⟩
  · rw [if_pos hs] at hp
    have hok : AnkiExport.exportToAnki clean title summary markdown =
        Except.ok (AnkiExport.ankiZipFilename title) := by
      unfold AnkiExport.exportToAnki
      simp [hp]
    refine ⟨⟨fun herr => ?_, fun h => absurd h hs⟩, fun _ => hok, fun t s m => rfl⟩
    rw [hok] at herr
    exact absurd herr (by simp)

/-- Witness for `c2_amended_structural_error` at title `"T"`, the
non-empty summary `"S"`, and the heading-free body `"hello"` (the
summary-only export succeeds and the PDF is downloaded). -/
theorem c2_amended_structural_error_witness :
    (∀ l ∈ jsSplitOn "hello" "\n", jsStartsWith l "# " = false) ∧
    ((AnkiExport.exportToAnki (fun s => s) "T" "S" "hello" =
        Except.error
          "No flashcards could be generated from this note. Make sure you have headings (# sections) with content." ↔
      jsTrim "S" = "") ∧
    (jsTrim "S" ≠ "" →
      AnkiExport.exportToAnki (fun s => s) "T" "S" "hello" =
        Except.ok (AnkiExport.ankiZipFilename "T")) ∧
    (∀ t s m : String,
      (ExportUtils.exportToPdf t s m).downloadedFile = some (ExportUtils.pdfFilename t))) :=
  ⟨by decide, c2_amended_structural_error (fun s => s) "T" "S" "hello" (by decide)⟩

/-- Claim C3 (amended): a run of fewer than two pipe-bounded lines is not
treated as a table — `renderTable` returns the document state and cursor
completely untouched, so the run's lines are consumed by the dispatch
loop and drawn by nothing: they are dropped from the output rather than
rendered as paragraph text. -/
theorem c3_amended_short_table_dropped (M : ExportUtils.Metrics)
    (doc : ExportUtils.Doc) (tableText : List String)
    (x y maxWidth pageHeight margin : ℚ)
    (hshort : (tableText.filter ExportUtils.pipeBounded).length < 2) :
    ExportUtils.renderTable M doc tableText x y maxWidth pageHeight margin = (doc, y) := by
  simp [ExportUtils.renderTable, if_pos hshort]

/-- Witness for `c3_amended_short_table_dropped` on the single-line run
`"| a |"`. -/
theorem c3_amended_short_table_dropped_witness :
    ((["| a |"].filter ExportUtils.pipeBounded).length < 2) ∧
    ExportUtils.renderTable unitMetrics ⟨1, []⟩ ["| a |"] 65 100 92 297 15 =
      (⟨1, []⟩, 100) :=
  ⟨by decide,
    c3_amended_short_table_dropped unitMetrics ⟨1, []⟩ ["| a |"] 65 100 92 297 15 (by decide)⟩

/-- Claim C3 (counterexample): the claim says a run of fewer than two
pipe-bounded lines falls through and is rendered as paragraph text with
the pipes as plain text.  Rendering the section body consisting only of
the line `"| a |"` emits no drawing command at all and leaves the cursor
where it started: the pipes appear nowhere in the output. -/
theorem c3_short_pipe_run_renders_nothing :
    ExportUtils.renderMarkdownContent unitMetrics ⟨1, []⟩ "| a |" 65 100 92 297 15 45 ⟨0, 1⟩ =
      (⟨1, []⟩, 100) := by
  have h1 : ¬((100 : ℚ) + 6 > 297 - 15) := by norm_num
  simp [ExportUtils.renderMarkdownContent, ExportUtils.renderLinesAux,
    ExportUtils.renderTable, jsSplitOn, splitOnListAux, ExportUtils.pipeBounded,
    jsTrim, jsStartsWith, jsEndsWith, ExportUtils.pageBreakWithDivider,
    ExportUtils.Doc.addPage, unitMetrics, isJsWs, List.isPrefixOf,
    List.takeWhile, List.dropWhile, List.filter, h1]

/-- Data-row loop invariant of the table renderer: started inside the
printable band, the cursor after the rows (before the trailing padding)
stays within `[margin, pageHeight − margin]`. -/
theorem tableRowsLoop_cursor_bound (M : ExportUtils.Metrics) (columns : List String)
    (separatorRow : String) (x totalWidth columnWidth pageHeight margin : ℚ)
    (hgeom : margin + 16 ≤ pageHeight - margin) :
    ∀ (rows : List String) (doc : ExportUtils.Doc) (y : ℚ),
      margin ≤ y → y ≤ pageHeight - margin →
      margin ≤ (ExportUtils.tableRowsLoop M columns separatorRow x totalWidth columnWidth
          pageHeight margin doc y rows).2 ∧
      (ExportUtils.tableRowsLoop M columns separatorRow x totalWidth columnWidth
          pageHeight margin doc y rows).2 ≤ pageHeight - margin := by
  intro rows
  induction rows with
  | nil => intro doc y h0 h1; exact ⟨h0, h1⟩
  | cons row rest ih =>
    intro doc y h0 h1
    by_cases hbr : y + 8 > pageHeight - margin
    · simp only [ExportUtils.tableRowsLoop, if_pos hbr]
      refine ih _ _ ?_ ?_ <;> linarith
    · simp only [ExportUtils.tableRowsLoop, if_neg hbr]
      push_neg at hbr
      refine ih _ _ ?_ ?_ <;> linarith

/-- Code-line loop invariant of the code-block renderer: started inside
the printable band, the cursor after the lines (before the trailing
padding) stays within `[margin, pageHeight − margin]`. -/
theorem codeLinesLoop_cursor_bound (x maxWidth pageHeight margin : ℚ)
    (hgeom : margin + 16 ≤ pageHeight - margin) :
    ∀ (ls : List String) (doc : ExportUtils.Doc) (y : ℚ),
      margin ≤ y → y ≤ pageHeight - margin →
      margin ≤ (ExportUtils.codeLinesLoop x maxWidth pageHeight margin doc y ls).2 ∧
      (ExportUtils.codeLinesLoop x maxWidth pageHeight margin doc y ls).2 ≤
        pageHeight - margin := by
  intro ls
  induction ls with
  | nil => intro doc y h0 h1; exact ⟨h0, h1⟩
  | cons l rest ih =>
    intro doc y h0 h1
    by_cases hbr : y + 6 > pageHeight - margin
    · simp only [ExportUtils.codeLinesLoop, if_pos hbr]
      refine ih _ _ ?_ ?_ <;> linarith
    · simp only [ExportUtils.codeLinesLoop, if_neg hbr]
      push_neg at hbr
      refine ih _ _ ?_ ?_ <;> linarith

/-- Claim C5 (amended): for the table and code-block renderers cited by
the claim, a cursor starting inside the printable band comes back with
`margin ≤ y ≤ pageHeight − margin + p`, where `p` is the block's
trailing padding (4 for tables, 2 for code blocks): the claimed upper
bound `pageHeight − margin` can be exceeded by the returned cursor by up
to that padding. -/
theorem c5_amended_cursor_bounds (M : ExportUtils.Metrics) (doc : ExportUtils.Doc)
    (rows codeLines : List String) (x y maxWidth pageHeight margin : ℚ)
    (h0 : margin ≤ y) (h1 : y ≤ pageHeight - margin)
    (hgeom : margin + 16 ≤ pageHeight - margin) :
    (margin ≤ (ExportUtils.renderTable M doc rows x y maxWidth pageHeight margin).2 ∧
      (ExportUtils.renderTable M doc rows x y maxWidth pageHeight margin).2 ≤
        pageHeight - margin + 4) ∧
    (margin ≤ (ExportUtils.renderCodeBlock doc codeLines x y maxWidth pageHeight margin).2 ∧
      (ExportUtils.renderCodeBlock doc codeLines x y maxWidth pageHeight margin).2 ≤
        pageHeight - margin + 2) := by
  have key : ∀ (cols : List String) (sep : String) (tw cw : ℚ) (rows2 : List String)
      (d : ExportUtils.Doc) (y0 : ℚ), margin ≤ y0 → y0 ≤ pageHeight - margin →
      margin ≤ (ExportUtils.tableRowsLoop M cols sep x tw cw pageHeight margin d y0 rows2).2 + 4 ∧
      (ExportUtils.tableRowsLoop M cols sep x tw cw pageHeight margin d y0 rows2).2 + 4 ≤
        pageHeight - margin + 4 := by
    intro cols sep tw cw rows2 d y0 hy0 hy1
    have hb := tableRowsLoop_cursor_bound M cols sep x tw cw pageHeight margin hgeom
      rows2 d y0 hy0 hy1
    exact ⟨by linarith [hb.1], by linarith [hb.2]⟩
  have key2 : ∀ (ls : List String) (d : ExportUtils.Doc) (y0 : ℚ),
      margin ≤ y0 → y0 ≤ pageHeight - margin →
      margin ≤ (ExportUtils.codeLinesLoop x maxWidth pageHeight margin d y0 ls).2 + 2 ∧
      (ExportUtils.codeLinesLoop x maxWidth pageHeight margin d y0 ls).2 + 2 ≤
        pageHeight - margin + 2 := by
    intro ls d y0 hy0 hy1
    have hb := codeLinesLoop_cursor_bound x maxWidth pageHeight margin hgeom ls d y0 hy0 hy1
    exact ⟨by linarith [hb.1], by linarith [hb.2]⟩
  constructor
  · by_cases hshort : (rows.filter ExportUtils.pipeBounded).length < 2
    · simp only [ExportUtils.renderTable, if_pos hshort]
      exact ⟨h0, by linarith⟩
    · by_cases hbr : y + 8 * 2 > pageHeight - margin
      · simp only [ExportUtils.renderTable, if_neg hshort, if_pos hbr]
        exact key _ _ _ _ _ _ _ (by linarith) (by linarith)
      · simp only [ExportUtils.renderTable, if_neg hshort, if_neg hbr]
        push_neg at hbr
        exact key _ _ _ _ _ _ _ (by linarith) (by linarith)
  · by_cases hbr : y + 6 * (codeLines.length : ℚ) + 6 > pageHeight - margin
    · simp only [ExportUtils.renderCodeBlock, if_pos hbr]
      exact key2 _ _ _ (le_refl _) (by linarith)
    · simp only [ExportUtils.renderCodeBlock, if_neg hbr]
      exact key2 _ _ _ h0 h1

/-- Witness for `c5_amended_cursor_bounds` on an A4 page (`pageHeight =
297`, `margin = 15`) with a one-data-row table and a one-line code
block, starting at `y = 100`. -/
theorem c5_amended_cursor_bounds_witness :
    ((15 : ℚ) ≤ 100 ∧ (100 : ℚ) ≤ 297 - 15 ∧ (15 : ℚ) + 16 ≤ 297 - 15) ∧
    ((15 ≤ (ExportUtils.renderTable unitMetrics ⟨1, []⟩ ["| a |", "| --- |", "| b |"]
          65 100 92 297 15).2 ∧
      (ExportUtils.renderTable unitMetrics ⟨1, []⟩ ["| a |", "| --- |", "| b |"]
          65 100 92 297 15).2 ≤ 297 - 15 + 4) ∧
     (15 ≤ (ExportUtils.renderCodeBlock ⟨1, []⟩ ["x"] 65 100 92 297 15).2 ∧
      (ExportUtils.renderCodeBlock ⟨1, []⟩ ["x"] 65 100 92 297 15).2 ≤ 297 - 15 + 2)) :=
  ⟨⟨by norm_num, by norm_num, by norm_num⟩,
    c5_amended_cursor_bounds unitMetrics ⟨1, []⟩ ["| a |", "| --- |", "| b |"] ["x"]
      65 100 92 297 15 (by norm_num) (by norm_num) (by norm_num)⟩

/-- Claim C5 (counterexample): the claim says the post-render cursor
always satisfies `y ≤ pageHeight − margin`.  On an A4 page
(`pageHeight − margin = 282`) the table `| a | / | --- | / | b |`
rendered from `y = 266` fits without a page break — header at 266,
data row at 274 — and returns `282 + 4 = 286`, which exceeds the
printable bound. -/
theorem c5_render_table_exceeds_bound :
    (ExportUtils.renderTable unitMetrics ⟨1, []⟩ ["| a |", "| --- |", "| b |"]
        65 266 92 297 15).2 = 286 ∧
    ¬((286 : ℚ) ≤ 297 - 15) := by
  constructor
  · norm_num [ExportUtils.renderTable, ExportUtils.tableRowsLoop,
      ExportUtils.drawTableHeaderAux, ExportUtils.drawTableRowCells,
      ExportUtils.drawCellLines, ExportUtils.splitCells, ExportUtils.pipeBounded,
      jsTrim, jsStartsWith, jsEndsWith, jsSplitOn, splitOnListAux,
      ExportUtils.tableAlignAt, ExportUtils.cellTextX, ExportUtils.pdfAlignmentOf,
      ExportUtils.cleanMarkdown, ExportUtils.stripBoldAux, ExportUtils.stripItalicAux,
      ExportUtils.stripCodeAux, ExportUtils.findStarStar, ExportUtils.findStar,
      ExportUtils.Doc.text, ExportUtils.Doc.drawLine, ExportUtils.Doc.addPage,
      unitMetrics, isJsWs, List.isPrefixOf, List.takeWhile, List.dropWhile,
      List.filter]
  · norm_num

/-- An ASCII alphanumeric character is not JavaScript whitespace. -/
theorem alnum_not_ws (c : Char) (h : isAsciiAlnum c = true) : isJsWs c = false := by
  cases hw : isJsWs c
  · rfl
  · exfalso
    have hw' : c = ' ' ∨ c = '\t' ∨ c = '\n' ∨ c = '\x0d' ∨ c = '\x0b' ∨ c = '\x0c' := by
      simpa [isJsWs, beq_iff_eq, or_assoc] using hw
    rcases hw' with h1 | h1 | h1 | h1 | h1 | h1 <;> subst h1 <;> exact absurd h (by decide)

/-- `noAdjacentNonAlnum` is closed under dropping the head. -/
theorem noAdj_tail (c : Char) (cs : List Char)
    (h : noAdjacentNonAlnum (c :: cs) = true) : noAdjacentNonAlnum cs = true := by
  cases cs with
  | nil => rfl
  | cons b rest =>
    simp only [noAdjacentNonAlnum, Bool.and_eq_true] at h
    exact h.2

/-- On a good title every maximal non-alphanumeric run is one space, so
the PDF rule (whitespace runs → one hyphen), the Anki rule (every
non-alphanumeric character → its own hyphen), and the claimed rule
(non-alphanumeric runs → one hyphen) produce the same characters. -/
theorem slug_rules_agree : ∀ l : List Char, goodTitle l = true →
    ExportUtils.wsRunsToHyphenAux false l =
      l.map (fun c => if isAsciiAlnum c then c else '-') ∧
    claimedSlugAux false l = l.map (fun c => if isAsciiAlnum c then c else '-') := by
  intro l
  induction l with
  | nil => intro _; exact ⟨rfl, rfl⟩
  | cons c cs ih =>
    intro hg
    simp only [goodTitle, List.all_cons, Bool.and_eq_true, Bool.or_eq_true] at hg
    obtain ⟨⟨hc, hall⟩, hadj⟩ := hg
    have hgcs : goodTitle cs = true := by
      simp only [goodTitle, Bool.and_eq_true]
      exact ⟨hall, noAdj_tail c cs hadj⟩
    rcases hc with halnum | hspace
    · have hws : isJsWs c = false := alnum_not_ws c halnum
      obtain ⟨ih1, ih2⟩ := ih hgcs
      refine ⟨?_, ?_⟩
      · simp only [ExportUtils.wsRunsToHyphenAux, hws, Bool.false_eq_true, if_false,
          List.map_cons, halnum, if_true]
        exact congrArg _ ih1
      · simp only [claimedSlugAux, halnum, if_true, List.map_cons]
        exact congrArg _ ih2
    · have hcs : c = ' ' := by simpa [beq_iff_eq] using hspace
      subst hcs
      have hws : isJsWs ' ' = true := by decide
      have hnal : isAsciiAlnum ' ' = false := by decide
      simp only [ExportUtils.wsRunsToHyphenAux, hws, if_true, claimedSlugAux, hnal,
        Bool.false_eq_true, if_false, List.map_cons]
      cases cs with
      | nil => exact ⟨rfl, rfl⟩
      | cons b rest =>
        have hbal : isAsciiAlnum b = true := by
          simp only [noAdjacentNonAlnum, Bool.and_eq_true, Bool.or_eq_true] at hadj
          rcases hadj.1 with hb | hb
          · exact absurd hb (by decide)
          · exact hb
        have hbws : isJsWs b = false := alnum_not_ws b hbal
        obtain ⟨ih1, ih2⟩ := ih hgcs
        have e1 : ExportUtils.wsRunsToHyphenAux true (b :: rest) =
            ExportUtils.wsRunsToHyphenAux false (b :: rest) := by
          simp only [ExportUtils.wsRunsToHyphenAux, hbws, Bool.false_eq_true, if_false]
        have e2 : claimedSlugAux true (b :: rest) = claimedSlugAux false (b :: rest) := by
          simp only [claimedSlugAux, hbal, if_true]
        rw [e1, e2, ih1, ih2]
        exact ⟨rfl, rfl⟩

/-- Claim C6 (amended): the claimed derivation — non-alphanumeric runs
replaced by hyphens, then lowercased, then the format's extension —
holds for both exporters on titles whose non-alphanumeric characters are
isolated single spaces (it can also coincide elsewhere, e.g. on titles
already containing single hyphens).  In general the PDF filename
replaces only whitespace runs (other punctuation is kept verbatim) and
the flashcard filename replaces each non-alphanumeric character with its
own hyphen (a run of k characters yields k hyphens). -/
theorem c6_amended_filename_rules (title : String) (hg : goodTitle title.data = true) :
    ExportUtils.pdfFilename title = claimedSlug title ++ ".pdf" ∧
    AnkiExport.ankiZipFilename title = claimedSlug title ++ "-anki-flashcards.zip" := by
  obtain ⟨h1, h2⟩ := slug_rules_agree title.data hg
  constructor
  · unfold ExportUtils.pdfFilename claimedSlug
    rw [h1, h2]
  · unfold AnkiExport.ankiZipFilename claimedSlug
    rw [h2]

/-- Witness for `c6_amended_filename_rules` at the title `"My Note"`. -/
theorem c6_amended_filename_rules_witness :
    goodTitle "My Note".data = true ∧
    (ExportUtils.pdfFilename "My Note" = claimedSlug "My Note" ++ ".pdf" ∧
      AnkiExport.ankiZipFilename "My Note" =
        claimedSlug "My Note" ++ "-anki-flashcards.zip") :=
  ⟨by decide, c6_amended_filename_rules "My Note" (by decide)⟩

/-- Claim C6 (counterexample): the claim says both filenames lowercase
the title with runs of non-alphanumeric characters replaced by hyphens.
For the title `"a.b"` the claimed slug is `a-b`, yet the PDF exporter
downloads `a.b.pdf` (the dot is not whitespace, so it survives); for the
title `"a  b"` the claimed slug is `a-b`, yet the flashcard exporter
names its archive `a--b-anki-flashcards.zip` (each of the two spaces
becomes its own hyphen). -/
theorem c6_filename_rule_counterexample :
    ExportUtils.pdfFilename "a.b" = "a.b.pdf" ∧
    claimedSlug "a.b" ++ ".pdf" = "a-b.pdf" ∧
    "a.b.pdf" ≠ "a-b.pdf" ∧
    AnkiExport.ankiZipFilename "a  b" = "a--b-anki-flashcards.zip" ∧
    claimedSlug "a  b" ++ "-anki-flashcards.zip" = "a-b-anki-flashcards.zip" ∧
    "a--b-anki-flashcards.zip" ≠ "a-b-anki-flashcards.zip" := by
  refine ⟨?_, ?_, ?_, ?_, ?_, ?_⟩ <;> decide

/-- `dropWhile` never lengthens a list. -/
theorem charDropWhileLen (p : Char → Bool) : ∀ l : List Char, (l.dropWhile p).length ≤ l.length := by
  intro l
  induction l with
  | nil => exact le_refl _
  | cons a l ih =>
    cases hp : p a
    · simp [List.dropWhile, hp]
    · simp only [List.dropWhile, hp]
      exact Nat.le_succ_of_le ih

/-- The note-link group `([^\]]+)`: on `t ++ ']' :: xs` with `t` free of
`]`, `takeWhile` collects exactly `t`. -/
theorem takeWhile_no_close (xs : List Char) :
    ∀ t : List Char, ']' ∉ t →
      (t ++ ']' :: xs).takeWhile (fun ch => ch ≠ ']') = t := by
  intro t
  induction t with
  | nil => intro _; simp [List.takeWhile]
  | cons a t' ih =>
    intro ht
    have ha : a ≠ ']' := fun h => ht (h ▸ List.mem_cons_self a t')
    have hd : decide (a ≠ ']') = true := decide_eq_true ha
    simp only [List.cons_append, List.takeWhile, hd, List.append_eq]
    exact congrArg _ (ih fun h => ht (List.mem_cons_of_mem a h))

/-- Companion to `takeWhile_no_close`: the scan resumes at the closing
bracket. -/
theorem dropWhile_no_close (xs : List Char) :
    ∀ t : List Char, ']' ∉ t →
      (t ++ ']' :: xs).dropWhile (fun ch => ch ≠ ']') = ']' :: xs := by
  intro t
  induction t with
  | nil => intro _; simp [List.dropWhile]
  | cons a t' ih =>
    intro ht
    have ha : a ≠ ']' := fun h => ht (h ▸ List.mem_cons_self a t')
    have hd : decide (a ≠ ']') = true := decide_eq_true ha
    simp only [List.cons_append, List.dropWhile, hd, List.append_eq]
    exact ih fun h => ht (List.mem_cons_of_mem a h)

/-- The fuel of `noteLinkAux` is irrelevant once it covers the input
length: every step consumes at least one character. -/
theorem noteLinkAux_fuel : ∀ n m (l : List Char), l.length ≤ n → l.length ≤ m →
    noteLinkAux n l = noteLinkAux m l := by
  intro n
  induction n with
  | zero =>
    intro m l hn _
    have hl : l = [] := List.length_eq_zero.mp (Nat.le_zero.mp hn)
    subst hl
    cases m <;> rfl
  | succ n ih =>
    intro m l hn hm
    cases l with
    | nil => cases m <;> rfl
    | cons c cs =>
      cases m with
      | zero => exact absurd hm (by simp)
      | succ m' =>
        have hcs_n : cs.length ≤ n := by simpa using hn
        have hcs_m : cs.length ≤ m' := by simpa using hm
        by_cases h1 : c = '[' ∧ cs.head? = some '['
        · by_cases h2 : cs.tail.takeWhile (fun ch => ch ≠ ']') ≠ [] ∧
              (cs.tail.dropWhile (fun ch => ch ≠ ']')).take 2 = [']', ']']
          · simp only [noteLinkAux, if_pos h1, if_pos h2]
            have hx : ((cs.tail.dropWhile (fun ch => ch ≠ ']')).drop 2).length ≤ cs.length := by
              have hd := charDropWhileLen (fun ch => decide (ch ≠ ']')) cs.tail
              have ht : cs.tail.length ≤ cs.length := by
                cases cs <;> simp [List.length_tail]
              have hdr := List.length_drop 2 (cs.tail.dropWhile (fun ch => ch ≠ ']'))
              omega
            rw [ih m' _ (le_trans hx hcs_n) (le_trans hx hcs_m)]
          · simp only [noteLinkAux, if_pos h1, if_neg h2]
            rw [ih m' cs hcs_n hcs_m]
        · simp only [noteLinkAux, if_neg h1]
          rw [ih m' cs hcs_n hcs_m]

/-- The note-link replacement substitutes each leftmost well-formed
token: on `pre ++ "[[" ++ t ++ "]]" ++ post` with no `[` in `pre`, `t`
non-empty and free of `]`, the token collapses to its title `t` and the
scan continues on `post`. -/
theorem noteLinkStrip_token : ∀ pre : List Char, '[' ∉ pre → ∀ t post : List Char,
    t ≠ [] → ']' ∉ t →
    noteLinkStripChars (pre ++ '[' :: '[' :: (t ++ ']' :: ']' :: post)) =
      pre ++ t ++ noteLinkStripChars post := by
  intro pre
  induction pre with
  | nil =>
    intro _ t post ht ht2
    unfold noteLinkStripChars
    simp only [List.nil_append, List.length_cons, noteLinkAux, List.head?_cons,
      List.tail_cons, and_self, if_true]
    rw [takeWhile_no_close (']' :: post) t ht2, dropWhile_no_close (']' :: post) t ht2]
    simp only [ht, ne_eq, not_false_eq_true, List.take, List.drop, and_true, true_and, if_true]
    rw [noteLinkAux_fuel ((t ++ ']' :: ']' :: post).length + 1) post.length post
      (by simp only [List.length_append, List.length_cons]; omega) (le_refl _)]
  | cons p ps ih =>
    intro hpre t post ht ht2
    have hp : ¬(p = '[' ∧ (ps ++ '[' :: '[' :: (t ++ ']' :: ']' :: post)).head? = some '[') := by
      intro hcon
      exact hpre (hcon.1 ▸ List.mem_cons_self p ps)
    unfold noteLinkStripChars
    simp only [List.cons_append, List.length_cons, noteLinkAux, List.append_eq, if_neg hp]
    have hih := ih (fun h => hpre (List.mem_cons_of_mem p h)) t post ht ht2
    unfold noteLinkStripChars at hih
    rw [hih]

/-- Claim C10 (amended): the PDF pipeline hands `parseMarkdown` the body
with the note-link replacement applied, while `extractNoteLinks` reads
the original body; each leftmost well-formed `[[title]]` token is
replaced by its title text.  However the title itself may contain `[`,
so bracket characters from a note link can still reach the rendered
body (see `c10_brackets_survive`). -/
theorem c10_amended_note_link_processing (title summary markdown : String)
    (pre t post : List Char) (hpre : '[' ∉ pre) (ht : t ≠ []) (ht2 : ']' ∉ t) :
    (ExportUtils.exportToPdf title summary markdown).sections =
      ExportUtils.parseMarkdown (String.mk (noteLinkStripChars markdown.data)) ∧
    (ExportUtils.exportToPdf title summary markdown).noteLinks = extractNoteLinks markdown ∧
    noteLinkStripChars (pre ++ '[' :: '[' :: (t ++ ']' :: ']' :: post)) =
      pre ++ t ++ noteLinkStripChars post :=
  ⟨rfl, rfl, noteLinkStrip_token pre hpre t post ht ht2⟩

/-- Witness for `c10_amended_note_link_processing` on the body
`"see [[Other Note]] here"`. -/
theorem c10_amended_note_link_processing_witness :
    ('[' ∉ "see ".data ∧ "Other Note".data ≠ [] ∧ ']' ∉ "Other Note".data) ∧
    ((ExportUtils.exportToPdf "T" "" "see [[Other Note]] here").sections =
        ExportUtils.parseMarkdown
          (String.mk (noteLinkStripChars "see [[Other Note]] here".data)) ∧
      (ExportUtils.exportToPdf "T" "" "see [[Other Note]] here").noteLinks =
        extractNoteLinks "see [[Other Note]] here" ∧
      noteLinkStripChars
          ("see ".data ++ '[' :: '[' :: ("Other Note".data ++ ']' :: ']' :: " here".data)) =
        "see ".data ++ "Other Note".data ++ noteLinkStripChars " here".data) :=
  ⟨⟨by decide, by decide, by decide⟩,
    c10_amended_note_link_processing "T" "" "see [[Other Note]] here"
      "see ".data "Other Note".data " here".data (by decide) (by decide) (by decide)⟩

/-- Claim C10 (counterexample): the claim says the bracket characters of
note links never appear in rendered PDF body text.  For the body
`"# H\n[[x[[y]]"` the single note link has title `x[[y` (as
`extractNoteLinks` reports); the replacement yields the section content
`x[[y`, which still contains `[[` and is rendered as an ordinary
paragraph. -/
theorem c10_brackets_survive :
    ExportUtils.processContentForExport "# H\n[[x[[y]]" = "# H\nx[[y" ∧
    extractNoteLinks "# H\n[[x[[y]]" = ["x[[y"] ∧
    (ExportUtils.exportToPdf "T" "" "# H\n[[x[[y]]").sections = [⟨"H", "x[[y"⟩] ∧
    hasSub "[[" "x[[y" = true := by
  refine ⟨?_, ?_, ?_, ?_⟩ <;> decide
